import Mathlib

/-! ExpLog: expense list, delete/undo, grouping, month total, CSV export

A shallow embedding of `src/app.js`.  The module-level variables `expenses`,
`lastDeleted` and the callbacks scheduled with `setTimeout(..., 200)` become
an explicit `State`; every function of the source that mutates them becomes
a function on `State`.

Conventions of the embedding:

* JavaScript numbers that hold money are exact rationals (`ℚ`); `NaN` is the
  `none` of `Option ℚ`.  Rounding error of IEEE doubles and the infinities
  are outside the model.
* Time values are integers (milliseconds since the epoch), as produced by
  `Date.now()`, within the range for which `new Date(t)` is a valid date.
* Built-ins of the platform (`Date` getters, `Math.round`, `toFixed`,
  `String.prototype.trim`, `Array.prototype.splice`, own-property order of
  objects) are modelled after ECMAScript; locale-dependent formatters and
  `JSON.parse` are parameters.
* DOM updates, toasts and vibration do not touch `expenses` or
  `lastDeleted` and are left out.
-/

namespace ExpLog

/-! ## Data model -/

/-- An expense record as built in `handleSubmit`. -/
structure Expense where
  id : String
  amount : ℚ
  note : String
  category : String
  timestamp : Int
  deriving DecidableEq, Repr

/-- The `lastDeleted` object: the removed record and the index it had. -/
structure Deleted where
  expense : Expense
  index : Nat
  deriving DecidableEq, Repr

/-- Module state of `app.js`: the collection, the undo slot, and the indices
captured by the removal callbacks that `deleteExpense` has scheduled and that
have not run yet (oldest first; equal delays fire in scheduling order). -/
structure State where
  expenses : List Expense
  lastDeleted : Option Deleted
  timers : List Nat
  deriving DecidableEq, Repr

/-- Result of running an event handler: the state it leaves behind and
whether an exception escaped from it. -/
structure Outcome where
  state : State
  threw : Bool
  deriving DecidableEq, Repr

/-! ## Array built-ins -/

/-- `Array.prototype.findIndex`; `none` stands for `-1`. -/
def findIndex {α : Type} (p : α → Bool) : List α → Option Nat
  | [] => none
  | x :: xs => if p x then some 0 else (findIndex p xs).map (· + 1)

/-- `Array.prototype.splice(start, deleteCount, ...items)` for non-negative
integer arguments: `start` is clamped to the length, and at most the elements
that exist are deleted. -/
def splice {α : Type} (l : List α) (start deleteCount : Nat) (items : List α) : List α :=
  l.take start ++ items ++ l.drop (start + deleteCount)

/-! ## Storage write -/

/-- `saveExpenses`: `localStorage.setItem(...)` with no handler around it.
The flag says whether the write succeeds; the result says whether the call
raised. -/
def saveExpenses (writeOk : Bool) : Bool := !writeOk

/-! ## Delete and undo -/

/-- `deleteExpense(id, el)`: look the record up by id, remember it with its
index in the undo slot, and schedule `expenses.splice(index, 1)` for later. -/
def deleteExpense (s : State) (id : String) : State :=
  match findIndex (fun e => e.id == id) s.expenses with
  | none => s
  | some index =>
    match s.expenses[index]? with
    | none => s
    | some e =>
      { s with lastDeleted := some { expense := e, index := index },
               timers := s.timers ++ [index] }

/-- The callback scheduled by `deleteExpense`, run for the oldest pending
removal: `expenses.splice(index, 1); saveExpenses(); ...`. -/
def removalCallback (writeOk : Bool) (s : State) : Outcome :=
  match s.timers with
  | [] => { state := s, threw := false }
  | index :: rest =>
    { state := { s with expenses := splice s.expenses index 1 [], timers := rest },
      threw := saveExpenses writeOk }

/-- `undoDelete()`. -/
def undoDelete (writeOk : Bool) (s : State) : Outcome :=
  match s.lastDeleted with
  | none => { state := s, threw := false }
  | some d =>
    { state := { s with expenses := splice s.expenses d.index 0 [d.expense],
                        lastDeleted := none },
      threw := saveExpenses writeOk }

/-! ## Adding a record -/

/-- `getCategoryLabel(cat)`: the display label, with `'Expense'` for a key
that is not in the table (`labels[cat] || 'Expense'`).  The table holds the
eight categories of the form's select; for a key that names a member
inherited from `Object.prototype` (`constructor`, `toString`, ...) the source
returns that member, which this table does not reproduce. -/
def getCategoryLabel (cat : String) : String :=
  if cat = "general" then "Expense"
  else if cat = "food" then "Food"
  else if cat = "transport" then "Transport"
  else if cat = "shopping" then "Shopping"
  else if cat = "bills" then "Bills"
  else if cat = "entertainment" then "Entertainment"
  else if cat = "health" then "Health"
  else if cat = "other" then "Other"
  else "Expense"

/-- White space and line terminators of ECMAScript, the characters that
`String.prototype.trim` strips. -/
def isJsWhiteSpace (c : Char) : Bool :=
  let n := c.toNat
  n == 9 || n == 10 || n == 11 || n == 12 || n == 13 || n == 32 || n == 160 ||
  n == 5760 || (8192 ≤ n && n ≤ 8202) || n == 8232 || n == 8233 || n == 8239 ||
  n == 8287 || n == 12288 || n == 65279

/-- `String.prototype.trim`. -/
def jsTrim (s : String) : String :=
  String.mk ((s.toList.dropWhile isJsWhiteSpace).reverse.dropWhile isJsWhiteSpace).reverse

/-- `Math.round` on an exact value: the nearest integer, ties towards
positive infinity.  It is applied below to the exact product `a * 100`, where
the source applies it to the product rounded to a double. -/
def mathRound (x : ℚ) : ℚ := (⌊x + 1 / 2⌋ : Int)

/-- One digit of `Number.prototype.toString(36)`. -/
def digit36 (d : Nat) : Char :=
  if d < 10 then Char.ofNat (48 + d) else Char.ofNat (87 + d)

/-- Digits of a natural number in base 36, most significant first. -/
def toDigits36 : Nat → Nat → List Char → List Char
  | 0, _, acc => acc
  | fuel + 1, n, acc =>
    if n / 36 = 0 then digit36 (n % 36) :: acc
    else toDigits36 fuel (n / 36) (digit36 (n % 36) :: acc)

/-- `n.toString(36)` for an integer time value. -/
def toString36 (n : Int) : String :=
  (if n < 0 then "-" else "") ++ String.mk (toDigits36 (n.natAbs + 1) n.natAbs [])

/-- `handleSubmit(e)`.  `amount` is `parseFloat(amountInput.value)`, `t0` and
`t1` are the two readings of `Date.now()`, and `rnd` is
`Math.random().toString(36).slice(2, 6)`.  The stored amount is computed
exactly; the source computes `amount * 100` and `/ 100` in doubles, so the two
agree only where neither operation rounds across a half (they differ at
0.015 and at 1.005), and an infinite parsed amount or product has no
counterpart here. -/
def handleSubmit (writeOk : Bool) (s : State) (amount : Option ℚ)
    (noteValue categoryValue : String) (t0 t1 : Int) (rnd : String) : Outcome :=
  match amount with
  | none => { state := s, threw := false }
  | some a =>
    if a = 0 ∨ a ≤ 0 then { state := s, threw := false }
    else
      let expense : Expense :=
        { id := toString36 t0 ++ rnd,
          amount := mathRound (a * 100) / 100,
          note := if jsTrim noteValue = "" then getCategoryLabel categoryValue
                  else jsTrim noteValue,
          category := categoryValue,
          timestamp := t1 }
      { state := { s with expenses := expense :: s.expenses },
        threw := saveExpenses writeOk }

/-! ## Events -/

/-- What can happen to the page: a form submission, a delete request for an
id, a scheduled removal coming due, a press on UNDO. -/
inductive Event where
  | submit (amount : Option ℚ) (noteValue categoryValue : String) (t0 t1 : Int)
      (rnd : String)
  | deleteRequest (id : String)
  | removalDue
  | undo

/-- Run one event handler. -/
def step (writeOk : Bool) (s : State) : Event → Outcome
  | .submit amount noteValue categoryValue t0 t1 rnd =>
    handleSubmit writeOk s amount noteValue categoryValue t0 t1 rnd
  | .deleteRequest id => { state := deleteExpense s id, threw := false }
  | .removalDue => removalCallback writeOk s
  | .undo => undoDelete writeOk s

/-- Run a sequence of events; an exception that escapes one handler does not
stop the page, the next event sees the state the handler left. -/
def run (writeOk : Bool) (s : State) (events : List Event) : State :=
  events.foldl (fun st ev => (step writeOk st ev).state) s

/-! ## The `Date` getters -/

/-- Milliseconds per day. -/
def msPerDay : Int := 86400000

/-- `LocalTime(t)`: the platform supplies `tza`, the local time zone
adjustment in milliseconds at an instant. -/
def localTime (tza : Int → Int) (t : Int) : Int := t + tza t

/-- Year, zero-based month and day of month of a day number counted from
1970-01-01, in the proleptic Gregorian calendar. -/
def civilFromDays (day : Int) : Int × Int × Int :=
  let z := day + 719468
  let era := z / 146097
  let doe := z - era * 146097
  let yoe := (doe - doe / 1460 + doe / 36524 - doe / 146096) / 365
  let doy := doe - (365 * yoe + yoe / 4 - yoe / 100)
  let mp := (5 * doy + 2) / 153
  let d := doy - (153 * mp + 2) / 5 + 1
  let m := if mp < 10 then mp + 3 else mp - 9
  (if m ≤ 2 then yoe + era * 400 + 1 else yoe + era * 400, m - 1, d)

/-- `new Date(t).getFullYear()`. -/
def getFullYear (tza : Int → Int) (t : Int) : Int :=
  (civilFromDays (localTime tza t / msPerDay)).1

/-- `new Date(t).getMonth()`, zero-based. -/
def getMonth (tza : Int → Int) (t : Int) : Int :=
  (civilFromDays (localTime tza t / msPerDay)).2.1

/-- `new Date(t).getDate()`. -/
def getDate (tza : Int → Int) (t : Int) : Int :=
  (civilFromDays (localTime tza t / msPerDay)).2.2

/-- `new Date(t).getHours()`. -/
def getHours (tza : Int → Int) (t : Int) : Int :=
  (localTime tza t % msPerDay) / 3600000

/-- `new Date(t).getMinutes()`. -/
def getMinutes (tza : Int → Int) (t : Int) : Int :=
  ((localTime tza t % msPerDay) % 3600000) / 60000

/-- `s.padStart(2, '0')`. -/
def padStart2 (s : String) : String :=
  String.mk (List.replicate (2 - s.length) '0') ++ s

/-- The key computed in `groupByDay`: year, month and day joined by
hyphens, month and day padded to two characters. -/
def dayKey (tza : Int → Int) (t : Int) : String :=
  toString (getFullYear tza t) ++ "-" ++ padStart2 (toString (getMonth tza t + 1)) ++ "-" ++
    padStart2 (toString (getDate tza t))

/-- Coordinated universal time: no adjustment. -/
def utc : Int → Int := fun _ => 0

/-! ## Objects with string keys -/

/-- Look a property up; `none` stands for `undefined`. -/
def objGet {β : Type} (o : List (String × β)) (k : String) : Option β :=
  match o with
  | [] => none
  | (k1, v) :: rest => if k1 = k then some v else objGet rest k

/-- Assign to a property: an existing property keeps its place, a new one is
created after all the others. -/
def objSet {β : Type} (o : List (String × β)) (k : String) (v : β) : List (String × β) :=
  match o with
  | [] => [(k, v)]
  | (k1, v1) :: rest => if k1 = k then (k1, v) :: rest else (k1, v1) :: objSet rest k v

/-- Value of a string of decimal digits. -/
def decimalValue (cs : List Char) : Nat :=
  cs.foldl (fun n c => 10 * n + (c.toNat - 48)) 0

/-- A property key that is an array index: the canonical decimal string of an
integer from 0 to 2^32 - 2. -/
def isArrayIndex (k : String) : Bool :=
  let cs := k.toList
  !cs.isEmpty && cs.all Char.isDigit && (cs.length == 1 || cs.head? != some '0') &&
    decide (decimalValue cs ≤ 4294967294)

/-- `Object.entries(o)`: array-index keys first, in ascending numeric order,
then the other string keys in the order in which they were created. -/
def objectEntries {β : Type} (o : List (String × β)) : List (String × β) :=
  (o.filter (fun p => isArrayIndex p.1)).insertionSort
      (fun p q => decimalValue p.1.toList ≤ decimalValue q.1.toList) ++
    o.filter (fun p => !isArrayIndex p.1)

/-! ## Aggregation -/

/-- The body of the `forEach` in `groupByDay`, for one record. -/
def groupByDayStep (tza : Int → Int) (groups : List (String × List Expense))
    (expense : Expense) : List (String × List Expense) :=
  let key := dayKey tza expense.timestamp
  let groups1 := if (objGet groups key).isNone then objSet groups key [] else groups
  match objGet groups1 key with
  | none => groups1
  | some items => objSet groups1 key (items ++ [expense])

/-- `groupByDay(items)`: the object that the source returns. -/
def groupByDay (tza : Int → Int) (items : List Expense) : List (String × List Expense) :=
  items.foldl (groupByDayStep tza) []

/-- The test of the `filter` in `updateMonthSummary`: same month number and
same year as `now`. -/
def sameMonth (tza : Int → Int) (now : Int) (e : Expense) : Bool :=
  getMonth tza e.timestamp == getMonth tza now &&
    getFullYear tza e.timestamp == getFullYear tza now

/-- The total computed in `updateMonthSummary`, for `now = new Date()`. -/
def monthTotal (tza : Int → Int) (now : Int) (expenses : List Expense) : ℚ :=
  (expenses.filter (sameMonth tza now)).foldl (fun sum e => sum + e.amount) 0

/-! ## CSV export -/

/-- The two locale formatters that `exportToCSV` calls on a time value:
`toLocaleDateString('en-CA')` and `toLocaleTimeString([], ...)` with
`hour12: false`. -/
structure Locale where
  toLocaleDateString : Int → String
  toLocaleTimeString : Int → String

/-- A locale for examples: UTC, dates as `YYYY-MM-DD`, times as `HH:MM`. -/
def utcLocale : Locale where
  toLocaleDateString := fun t => dayKey utc t
  toLocaleTimeString := fun t =>
    padStart2 (toString (getHours utc t)) ++ ":" ++ padStart2 (toString (getMinutes utc t))

/-- The double quote character. -/
def dquote : Char := Char.ofNat 34

/-- The replacement `note.replace(/"/g, '""')`: every double quote doubled. -/
def doubleQuotes (note : String) : String :=
  String.mk ((note.toList.map (fun c => if c = dquote then [dquote, dquote] else [c])).flatten)

/-- The note field of a row: the note with its quotes doubled, wrapped in
double quotes. -/
def noteField (note : String) : String :=
  String.singleton dquote ++ doubleQuotes note ++ String.singleton dquote

/-- `Number::toString` for a value of at least 10^21, which is printed with an
exponent: the significant digits of the integer part and its power of ten. -/
def numberToStringExp (x : ℚ) : String :=
  let ds := Nat.toDigits 10 ⌊x⌋.toNat
  let e := toString (ds.length - 1)
  match (ds.reverse.dropWhile (fun c => c == '0')).reverse with
  | [] => "0"
  | [d] => String.mk [d] ++ "e+" ++ e
  | d :: rest => String.mk (d :: '.' :: rest) ++ "e+" ++ e

/-- The last steps of `toFixed(2)` on the digit string `m` of `n`: pad with
zeros on the left to three characters when `m` has at most two, then split
before the last two characters. -/
def padSplit (m : List Char) : List Char × List Char :=
  let m2 := if m.length ≤ 2 then List.replicate (3 - m.length) '0' ++ m else m
  (m2.take (m2.length - 2), m2.drop (m2.length - 2))

/-- The digits that `toFixed(2)` prints for a non-negative value below
10^21: `n` is the integer nearest to `x * 100` (the larger on a tie), and its
decimal digits are padded and split. -/
def fixedDigits (x : ℚ) : List Char × List Char :=
  padSplit (Nat.toDigits 10 ⌊x * 100 + 1 / 2⌋.toNat)

/-- `Number.prototype.toFixed(2)`. -/
def toFixed2 (x : ℚ) : String :=
  let s := if x < 0 then "-" else ""
  let x := if x < 0 then -x else x
  if (10 : ℚ) ^ 21 ≤ x then s ++ numberToStringExp x
  else s ++ String.mk (fixedDigits x).1 ++ "." ++ String.mk (fixedDigits x).2

/-- One element of `rows` in `exportToCSV`. -/
def csvRow (loc : Locale) (e : Expense) : String :=
  ",".intercalate
    [loc.toLocaleDateString e.timestamp, loc.toLocaleTimeString e.timestamp,
     getCategoryLabel e.category, noteField e.note, toFixed2 e.amount]

/-- The `headers` array of `exportToCSV`. -/
def csvHeaders : List String := ["Date", "Time", "Category", "Note", "Amount"]

/-- The text `csv` built by `exportToCSV`; `none` when the collection is
empty and the function only shows a toast. -/
def exportToCSV (loc : Locale) (expenses : List Expense) : Option String :=
  if expenses.length = 0 then none
  else some ("\n".intercalate (",".intercalate csvHeaders :: expenses.map (csvRow loc)))

/-! ## Loading -/

/-- A value that `JSON.parse` can return. -/
inductive JsVal where
  | null
  | bool (b : Bool)
  | num (q : ℚ)
  | str (s : String)
  | arr (items : List JsVal)
  | obj (props : List (String × JsVal))

/-- What `localStorage.getItem(STORAGE_KEY)` does: it raises, it returns
`null` because nothing is stored, or it returns the stored string. -/
inductive StoredRead where
  | raises
  | absent
  | value (data : String)

/-- `loadExpenses()`: the value that ends up in `expenses`.  `jsonParse` is
`JSON.parse`, with `none` for a raised `SyntaxError`. -/
def loadExpenses (jsonParse : String → Option JsVal) (read : StoredRead) : JsVal :=
  match read with
  | .raises => .arr []
  | .absent => .arr []
  | .value data =>
    if data = "" then .arr []
    else
      match jsonParse data with
      | none => .arr []
      | some v => v

/-- `JSON.parse` on the three JSON literal texts, which the examples below
read back from storage; this table has no entry for any other text. -/
def parseLiteral (data : String) : Option JsVal :=
  if data = "null" then some .null
  else if data = "true" then some (.bool true)
  else if data = "false" then some (.bool false)
  else none

/-! ## The specification's description of grouping -/

/-- Distinct elements of a list of keys, in order of first occurrence. -/
def firstSeen : List String → List String
  | [] => []
  | k :: ks => k :: (firstSeen ks).filter (fun x => x != k)

/-- The groups as the specification describes them: one entry per distinct
key in order of first occurrence, holding the records with that key in their
original order. -/
def groupsSpec (key : Expense → String) (items : List Expense) :
    List (String × List Expense) :=
  (firstSeen (items.map key)).map (fun k => (k, items.filter (fun e => key e == k)))

/-! ## Sample data -/

/-- A record with the given id. -/
def sample (id : String) : Expense :=
  { id := id, amount := 5, note := "n", category := "food", timestamp := 0 }

/-- A state with no undo pending and no removal scheduled. -/
def idle (expenses : List Expense) : State :=
  { expenses := expenses, lastDeleted := none, timers := [] }

/-- Logged on 2 Jan 2024 at 10:00 UTC. -/
def jan2a : Expense :=
  { id := "r1", amount := 12, note := "n", category := "food", timestamp := 1704189600000 }

/-- Logged on 1 Jan 2024 at 09:00 UTC. -/
def jan1 : Expense :=
  { id := "r2", amount := 7, note := "n", category := "food", timestamp := 1704099600000 }

/-- Logged on 2 Jan 2024 at 08:00 UTC. -/
def jan2b : Expense :=
  { id := "r3", amount := 3, note := "n", category := "food", timestamp := 1704182400000 }

/-- Logged on 15 Jan 2023 at 12:00 UTC. -/
def jan2023 : Expense :=
  { id := "r4", amount := 100, note := "n", category := "bills", timestamp := 1673784000000 }

/-- Logged on 15 Feb 2024 at 12:00 UTC. -/
def feb2024 : Expense :=
  { id := "r5", amount := 50, note := "n", category := "bills", timestamp := 1707998400000 }

/-- A record whose note holds double quotes. -/
def quoted : Expense :=
  { id := "r6", amount := 1234567 / 100, note := "He said \x22hi\x22", category := "food",
    timestamp := 1704189600000 }

/-- A record whose amount is 2e21. -/
def huge : Expense :=
  { id := "r7", amount := 2 * 10 ^ 21, note := "n", category := "bills",
    timestamp := 1704189600000 }

/-! # Properties -/

theorem splice_cons_succ {α : Type} (x : α) (xs : List α) (j d : Nat) (items : List α) :
    splice (x :: xs) (j + 1) d items = x :: splice xs j d items := by
  simp [splice, Nat.add_right_comm j 1 d]

theorem findIndex_eq_some {α : Type} (p : α → Bool) :
    ∀ (l : List α) (i : Nat), findIndex p l = some i → ∃ x, l[i]? = some x ∧ p x = true := by
  intro l
  induction l with
  | nil => intro i h; simp [findIndex] at h
  | cons x xs ih =>
    intro i h
    unfold findIndex at h
    by_cases hp : p x = true
    · simp [hp] at h
      subst h
      exact ⟨x, by simp, hp⟩
    · simp [hp] at h
      obtain ⟨j, hj, rfl⟩ := h
      obtain ⟨y, hy, hpy⟩ := ih j hj
      exact ⟨y, by simpa using hy, hpy⟩

theorem findIndex_of_mem {α : Type} (p : α → Bool) :
    ∀ (l : List α) (x : α), x ∈ l → p x = true → ∃ i, findIndex p l = some i := by
  intro l
  induction l with
  | nil => intro x hx; simp at hx
  | cons y ys ih =>
    intro x hx hp
    unfold findIndex
    by_cases hy : p y = true
    · exact ⟨0, by simp [hy]⟩
    · have hx' : x ∈ ys := by
        rcases List.mem_cons.mp hx with h | h
        · subst h; exact absurd hp hy
        · exact h
      obtain ⟨i, hi⟩ := ih x hx' hp
      exact ⟨i + 1, by simp [hy, hi]⟩

theorem splice_remove_insert {α : Type} :
    ∀ (l : List α) (i : Nat) (x : α), l[i]? = some x →
      splice (splice l i 1 []) i 0 [x] = l := by
  intro l
  induction l with
  | nil => intro i x h; simp at h
  | cons y ys ih =>
    intro i x h
    cases i with
    | zero =>
      simp at h
      subst h
      simp [splice]
    | succ j =>
      have h' : ys[j]? = some x := by simpa using h
      rw [splice_cons_succ, splice_cons_succ, ih j x h']

theorem splice_findIndex_eq_filter (id : String) :
    ∀ (l : List Expense) (i : Nat), (l.map (fun e => e.id)).Nodup →
      findIndex (fun e => e.id == id) l = some i →
      splice l i 1 [] = l.filter (fun e => e.id != id) := by
  intro l
  induction l with
  | nil => intro i _ h; simp [findIndex] at h
  | cons y ys ih =>
    intro i hnd h
    have hnd' : y.id ∉ ys.map (fun e => e.id) ∧ (ys.map (fun e => e.id)).Nodup := by
      simpa using hnd
    unfold findIndex at h
    by_cases hy : y.id = id
    · simp [hy] at h
      subst h
      have hall : ∀ e ∈ ys, (e.id != id) = true := by
        intro e he
        have : e.id ≠ y.id := by
          intro hc
          exact hnd'.1 (List.mem_map.mpr ⟨e, he, hc⟩)
        simpa [hy] using this
      simp [splice, hy, List.filter_eq_self.mpr hall]
    · simp [hy] at h
      obtain ⟨j, hj, rfl⟩ := h
      rw [splice_cons_succ, ih j hnd'.2 hj]
      simp [hy]


theorem delete_removal_state (w : Bool) (s : State) (id : String) (i : Nat) (e : Expense)
    (hp : s.timers = []) (hi : findIndex (fun e => e.id == id) s.expenses = some i)
    (he : s.expenses[i]? = some e) :
    (removalCallback w (deleteExpense s id)).state =
      { expenses := splice s.expenses i 1 [], lastDeleted := some { expense := e, index := i },
        timers := [] } := by
  simp [deleteExpense, removalCallback, hi, he, hp]

theorem mem_ids_findIndex (l : List Expense) (id : String)
    (h : id ∈ l.map (fun e => e.id)) :
    ∃ i e, findIndex (fun e => e.id == id) l = some i ∧ l[i]? = some e ∧ e.id = id := by
  obtain ⟨x, hx, hid⟩ := List.mem_map.mp h
  obtain ⟨i, hi⟩ := findIndex_of_mem (fun e => e.id == id) l x hx (by simpa using hid)
  obtain ⟨e, he, hpe⟩ := findIndex_eq_some _ l i hi
  exact ⟨i, e, hi, he, by simpa using hpe⟩

theorem splice_one_length {α : Type} (l : List α) (i : Nat) (x : α) (h : l[i]? = some x) :
    (splice l i 1 []).length + 1 = l.length := by
  have hlt : i < l.length := by
    by_contra hc
    rw [List.getElem?_eq_none (Nat.le_of_not_lt hc)] at h
    exact Option.noConfusion h
  simp [splice]
  omega

/-- C1: a delete request for an id that is present, its scheduled removal,
and then `undoDelete` give back the collection as it was before the delete,
element for element, and leave the undo slot empty; in between the
collection is one record shorter. -/
theorem delete_undo_round_trip (w : Bool) (s : State) (id : String)
    (hp : s.timers = []) (hmem : id ∈ s.expenses.map (fun e => e.id)) :
    (run w s [.deleteRequest id, .removalDue, .undo]).expenses = s.expenses ∧
      (run w s [.deleteRequest id, .removalDue, .undo]).lastDeleted = none ∧
      (run w s [.deleteRequest id, .removalDue]).expenses.length + 1 = s.expenses.length := by
  obtain ⟨i, e, hi, he, _⟩ := mem_ids_findIndex s.expenses id hmem
  have h2 := delete_removal_state w s id i e hp hi he
  simp only [run, List.foldl_cons, List.foldl_nil, step]
  rw [h2]
  refine ⟨?_, ?_, ?_⟩
  · simp [undoDelete, splice_remove_insert s.expenses i e he]
  · simp [undoDelete]
  · exact splice_one_length s.expenses i e he

theorem delete_undo_round_trip_witness :
    (idle [sample "a", sample "b", sample "c"]).timers = [] ∧
      "b" ∈ (idle [sample "a", sample "b", sample "c"]).expenses.map (fun e => e.id) ∧
      (run true (idle [sample "a", sample "b", sample "c"])
          [.deleteRequest "b", .removalDue, .undo]).expenses =
        (idle [sample "a", sample "b", sample "c"]).expenses ∧
      (run true (idle [sample "a", sample "b", sample "c"])
          [.deleteRequest "b", .removalDue, .undo]).lastDeleted = none ∧
      (run true (idle [sample "a", sample "b", sample "c"])
          [.deleteRequest "b", .removalDue]).expenses.length + 1 =
        (idle [sample "a", sample "b", sample "c"]).expenses.length :=
  ⟨rfl, by decide,
    delete_undo_round_trip true (idle [sample "a", sample "b", sample "c"]) "b" rfl (by decide)⟩

theorem nodup_of_ids_nodup (l : List Expense) (h : (l.map (fun e => e.id)).Nodup) : l.Nodup :=
  List.Nodup.of_map _ h

/-- C2: with no removal pending and pairwise distinct ids, deleting `a`,
then deleting `b` (each delete with its scheduled removal), then pressing UNDO
leaves exactly the original collection without `a`: `b` is back, `a` is
absent, every other record occurs once, the order is the original one, the
undo slot is empty and a further `undoDelete` changes nothing. -/
theorem second_delete_supersedes_first (w : Bool) (s : State) (a b : Expense)
    (hp : s.timers = []) (hnd : (s.expenses.map (fun e => e.id)).Nodup)
    (ha : a ∈ s.expenses) (hb : b ∈ s.expenses) (hab : a ≠ b) :
    (run w s [.deleteRequest a.id, .removalDue, .deleteRequest b.id, .removalDue,
        .undo]).expenses = s.expenses.filter (fun e => e.id != a.id) ∧
      b ∈ (run w s [.deleteRequest a.id, .removalDue, .deleteRequest b.id, .removalDue,
        .undo]).expenses ∧
      a ∉ (run w s [.deleteRequest a.id, .removalDue, .deleteRequest b.id, .removalDue,
        .undo]).expenses ∧
      (∀ e ∈ s.expenses, e ≠ a →
        (run w s [.deleteRequest a.id, .removalDue, .deleteRequest b.id, .removalDue,
          .undo]).expenses.count e = 1) ∧
      (run w s [.deleteRequest a.id, .removalDue, .deleteRequest b.id, .removalDue,
        .undo]).lastDeleted = none ∧
      ∀ w2, undoDelete w2 (run w s [.deleteRequest a.id, .removalDue, .deleteRequest b.id,
        .removalDue, .undo]) =
        { state := run w s [.deleteRequest a.id, .removalDue, .deleteRequest b.id,
            .removalDue, .undo], threw := false } := by
  -- ids of different members differ
  have hid : ∀ x ∈ s.expenses, ∀ y ∈ s.expenses, x.id = y.id → x = y :=
    fun x hx y hy hxy => List.inj_on_of_nodup_map hnd hx hy hxy
  have habid : b.id ≠ a.id := fun hc => hab (hid b hb a ha hc).symm
  -- first delete
  obtain ⟨i, e, hi, he, _⟩ :=
    mem_ids_findIndex s.expenses a.id (List.mem_map.mpr ⟨a, ha, rfl⟩)
  have h1 := delete_removal_state w s a.id i e hp hi he
  have hL1 := splice_findIndex_eq_filter a.id s.expenses i hnd hi
  -- second delete, in the collection without `a`
  have hbL1 : b ∈ s.expenses.filter (fun e => e.id != a.id) := by
    simp [List.mem_filter, hb, habid]
  obtain ⟨j, e2, hj, he2, _⟩ :=
    mem_ids_findIndex (s.expenses.filter (fun e => e.id != a.id)) b.id
      (List.mem_map.mpr ⟨b, hbL1, rfl⟩)
  have hfinal : run w s [.deleteRequest a.id, .removalDue, .deleteRequest b.id, .removalDue,
      .undo] =
      { expenses := s.expenses.filter (fun e => e.id != a.id), lastDeleted := none,
        timers := [] } := by
    simp only [run, List.foldl_cons, List.foldl_nil, step]
    rw [h1, hL1]
    rw [delete_removal_state w _ b.id j e2 rfl hj he2]
    simp [undoDelete, splice_remove_insert _ j e2 he2]
  rw [hfinal]
  refine ⟨rfl, hbL1, ?_, ?_, rfl, ?_⟩
  · simp [List.mem_filter]
  · intro x hx hxa
    have hxid : x.id ≠ a.id := fun hc => hxa (hid x hx a ha hc)
    have hmem : x ∈ s.expenses.filter (fun e => e.id != a.id) := by
      simp [List.mem_filter, hx, hxid]
    exact List.count_eq_one_of_mem ((nodup_of_ids_nodup _ hnd).filter _) hmem
  · intro w2
    simp [undoDelete]

theorem second_delete_supersedes_first_witness :
    (run true (idle [sample "a", sample "b", sample "c"])
        [.deleteRequest (sample "a").id, .removalDue, .deleteRequest (sample "c").id,
          .removalDue, .undo]).expenses = [sample "b", sample "c"] :=
  (second_delete_supersedes_first true (idle [sample "a", sample "b", sample "c"])
    (sample "a") (sample "c") rfl (by decide) (by decide) (by decide) (by decide)).1

/-- With no removal pending and pairwise distinct ids, a delete request
followed by its own scheduled removal takes out the named record and leaves
the others in place. -/
theorem delete_when_idle_removes_named (w : Bool) (s : State) (id : String)
    (hp : s.timers = []) (hnd : (s.expenses.map (fun e => e.id)).Nodup)
    (hmem : id ∈ s.expenses.map (fun e => e.id)) :
    (run w s [.deleteRequest id, .removalDue]).expenses =
      s.expenses.filter (fun e => e.id != id) := by
  obtain ⟨i, e, hi, he, _⟩ := mem_ids_findIndex s.expenses id hmem
  simp only [run, List.foldl_cons, List.foldl_nil, step]
  rw [delete_removal_state w s id i e hp hi he]
  exact splice_findIndex_eq_filter id s.expenses i hnd hi

/-- C3, the code at the failing input: in the collection a, b, c a delete
request for a and a delete request for b arrive before either scheduled
removal has run; the two removals then take out a and c, and b, which was
named, stays.  In the collection a, b two delete requests for a (a double
click) take out b as well. -/
theorem overlapping_deletes_remove_other_record :
    (run true (idle [sample "a", sample "b", sample "c"])
        [.deleteRequest "a", .deleteRequest "b", .removalDue, .removalDue]).expenses =
        [sample "b"] ∧
      (run true (idle [sample "a", sample "b"])
        [.deleteRequest "a", .deleteRequest "a", .removalDue, .removalDue]).expenses = [] := by
  decide

/-- For a parsed amount above zero `handleSubmit` puts exactly one new record
in front of the collection and leaves the earlier records, the undo slot and
the pending removals as they were; the record's category is the submitted
one, its note is the trimmed note, or the category label when the trimmed
note is empty, and its timestamp is the second clock reading.  Nothing is
said here about the stored amount, which the source computes in doubles. -/
theorem handleSubmit_prepends_one (w : Bool) (s : State) (amount : ℚ)
    (noteValue categoryValue : String) (t0 t1 : Int) (rnd : String) (h : 0 < amount) :
    ∃ r : Expense,
      (handleSubmit w s (some amount) noteValue categoryValue t0 t1 rnd).state =
          { s with expenses := r :: s.expenses } ∧
        r.category = categoryValue ∧
        r.note = (if jsTrim noteValue = "" then getCategoryLabel categoryValue
                  else jsTrim noteValue) ∧
        r.timestamp = t1 := by
  have hg : ¬ (amount = 0 ∨ amount ≤ 0) := by
    rintro (h0 | h0)
    · exact absurd h0 (ne_of_gt h)
    · exact absurd h (not_lt.mpr h0)
  refine ⟨{ id := toString36 t0 ++ rnd, amount := mathRound (amount * 100) / 100,
            note := if jsTrim noteValue = "" then getCategoryLabel categoryValue
                    else jsTrim noteValue,
            category := categoryValue, timestamp := t1 }, ?_, rfl, rfl, rfl⟩
  simp only [handleSubmit, if_neg hg]

/-- A parsed amount that is `NaN`, zero or negative is refused: the
collection, the undo slot and the pending removals stay as they are and no
exception escapes. -/
theorem handleSubmit_refuses_invalid (w : Bool) (s : State) (amount : Option ℚ)
    (noteValue categoryValue : String) (t0 t1 : Int) (rnd : String)
    (h : amount = none ∨ ∃ a, amount = some a ∧ a ≤ 0) :
    handleSubmit w s amount noteValue categoryValue t0 t1 rnd = { state := s, threw := false } := by
  rcases h with rfl | ⟨a, rfl, ha⟩
  · rfl
  · have hg : a = 0 ∨ a ≤ 0 := Or.inr ha
    simp only [handleSubmit, if_pos hg]

/-- The amount that `handleSubmit` stores is never negative. -/
theorem mathRound_nonneg (a : ℚ) (h : 0 < a) : 0 ≤ mathRound (a * 100) / 100 := by
  unfold mathRound
  have hf : (0 : Int) ≤ ⌊a * 100 + 1 / 2⌋ := Int.floor_nonneg.mpr (by linarith)
  have hq : (0 : ℚ) ≤ ((⌊a * 100 + 1 / 2⌋ : Int) : ℚ) := by exact_mod_cast hf
  exact div_nonneg hq (by norm_num)

/-- C5, the code at the failing input: the amount 0.004 passes the check
`amount <= 0`, and the record that `handleSubmit` stores for it has the
amount 0. -/
theorem handleSubmit_stores_zero_amount :
    (handleSubmit true (idle []) (some (4 / 1000)) "" "food" 1704189600000 1704189600000
        "k3f9").state =
      idle [{ id := "lqw6hj40k3f9", amount := 0, note := "Food", category := "food",
              timestamp := 1704189600000 }] := by
  have hr : mathRound ((4 / 1000 : ℚ) * 100) / 100 = 0 := by
    have : mathRound ((4 / 1000 : ℚ) * 100) = 0 := by
      simp [mathRound, Int.floor_eq_iff]; norm_num
    rw [this]; norm_num
  have hg : ¬ ((4 / 1000 : ℚ) = 0 ∨ (4 / 1000 : ℚ) ≤ 0) := by norm_num
  have hid : toString36 1704189600000 ++ "k3f9" = "lqw6hj40k3f9" := by decide
  have hnote : (if jsTrim "" = "" then getCategoryLabel "food" else jsTrim "") = "Food" := by
    decide
  simp only [handleSubmit, if_neg hg, hr, hid, hnote, idle]

theorem mem_firstSeen (k : String) : ∀ l : List String, k ∈ firstSeen l ↔ k ∈ l := by
  intro l
  induction l with
  | nil => simp [firstSeen]
  | cons x xs ih =>
    simp only [firstSeen, List.mem_cons, List.mem_filter, ih]
    by_cases h : k = x
    · simp [h]
    · simp [h]

theorem firstSeen_nodup : ∀ l : List String, (firstSeen l).Nodup := by
  intro l
  induction l with
  | nil => simp [firstSeen]
  | cons x xs ih =>
    simp only [firstSeen, List.nodup_cons, List.mem_filter]
    exact ⟨by simp, ih.filter _⟩

theorem firstSeen_append_singleton (k : String) :
    ∀ l : List String,
      firstSeen (l ++ [k]) = if k ∈ l then firstSeen l else firstSeen l ++ [k] := by
  intro l
  induction l with
  | nil => simp [firstSeen]
  | cons x xs ih =>
    have hstep : firstSeen (x :: xs ++ [k]) =
        x :: (firstSeen (xs ++ [k])).filter (fun y => y != x) := rfl
    rw [hstep, ih]
    by_cases hx : k = x
    · subst hx
      by_cases hk : k ∈ xs
      · simp [hk, firstSeen]
      · simp [hk, firstSeen, List.filter_append]
    · by_cases hk : k ∈ xs
      · simp [hk, firstSeen]
      · simp [hk, hx, firstSeen, List.filter_append]

theorem firstSeen_indexOf (l : List String) :
    (firstSeen l).Pairwise (fun a b => l.indexOf a < l.indexOf b) := by
  induction l with
  | nil => simp [firstSeen]
  | cons x xs ih =>
    simp only [firstSeen, List.pairwise_cons, List.mem_filter]
    constructor
    · intro b hb
      have hbx : b ≠ x := by simpa using hb.2
      rw [List.indexOf_cons_self, List.indexOf_cons_ne _ (Ne.symm hbx)]
      exact Nat.succ_pos _
    · have hsub : ((firstSeen xs).filter (fun y => y != x)).Pairwise
          (fun a b => xs.indexOf a < xs.indexOf b) := ih.filter _
      refine List.Pairwise.imp_of_mem ?_ hsub
      intro a b ha hb hab
      have hax : a ≠ x := by simpa using (List.mem_filter.mp ha).2
      have hbx : b ≠ x := by simpa using (List.mem_filter.mp hb).2
      rw [List.indexOf_cons_ne _ (Ne.symm hax), List.indexOf_cons_ne _ (Ne.symm hbx)]
      exact Nat.succ_lt_succ hab

theorem objGet_map {β : Type} (f : String → β) (k : String) :
    ∀ ks : List String,
      objGet (ks.map (fun x => (x, f x))) k = if k ∈ ks then some (f k) else none := by
  intro ks
  induction ks with
  | nil => simp [objGet]
  | cons x xs ih =>
    simp only [List.map_cons, objGet, ih, List.mem_cons]
    by_cases hx : x = k
    · subst hx; simp
    · have hx' : ¬ k = x := fun h => hx h.symm
      simp [hx, hx']

theorem objSet_map_absent {β : Type} (f : String → β) (k : String) (v : β) :
    ∀ ks : List String, k ∉ ks →
      objSet (ks.map (fun x => (x, f x))) k v = ks.map (fun x => (x, f x)) ++ [(k, v)] := by
  intro ks
  induction ks with
  | nil => intro _; simp [objSet]
  | cons x xs ih =>
    intro hk
    have hx : ¬ x = k := fun h => hk (by simp [h])
    have hk' : k ∉ xs := fun h => hk (List.mem_cons_of_mem _ h)
    simp [objSet, hx, ih hk']

theorem objSet_map_present {β : Type} (f : String → β) (k : String) (v : β) :
    ∀ ks : List String, ks.Nodup → k ∈ ks →
      objSet (ks.map (fun x => (x, f x))) k v =
        ks.map (fun x => (x, if x = k then v else f x)) := by
  intro ks
  induction ks with
  | nil => intro _ hk; simp at hk
  | cons x xs ih =>
    intro hnd hk
    have hnd' : x ∉ xs ∧ xs.Nodup := by simpa using hnd
    by_cases hx : x = k
    · subst hx
      have hrest : xs.map (fun y => (y, if y = x then v else f y)) = xs.map (fun y => (y, f y)) := by
        apply List.map_congr_left
        intro y hy
        have : ¬ y = x := fun h => hnd'.1 (h ▸ hy)
        simp [this]
      simp [objSet, hrest]
    · have hk' : k ∈ xs := by
        rcases List.mem_cons.mp hk with h | h
        · exact absurd h.symm hx
        · exact h
      simp [objSet, hx, ih hnd'.2 hk']

theorem objGet_append_new {β : Type} (k : String) (v : β) :
    ∀ o : List (String × β), (∀ p ∈ o, p.1 ≠ k) → objGet (o ++ [(k, v)]) k = some v := by
  intro o
  induction o with
  | nil => intro _; simp [objGet]
  | cons q qs ih =>
    intro h
    obtain ⟨k1, v1⟩ := q
    have hq : ¬ k1 = k := h (k1, v1) (by simp)
    have hrest : ∀ p ∈ qs, p.1 ≠ k := fun p hp => h p (List.mem_cons_of_mem _ hp)
    simp [objGet, hq, ih hrest]

theorem objSet_append_new {β : Type} (k : String) (v v2 : β) :
    ∀ o : List (String × β), (∀ p ∈ o, p.1 ≠ k) →
      objSet (o ++ [(k, v)]) k v2 = o ++ [(k, v2)] := by
  intro o
  induction o with
  | nil => intro _; simp [objSet]
  | cons q qs ih =>
    intro h
    obtain ⟨k1, v1⟩ := q
    have hq : ¬ k1 = k := h (k1, v1) (by simp)
    have hrest : ∀ p ∈ qs, p.1 ≠ k := fun p hp => h p (List.mem_cons_of_mem _ hp)
    simp [objSet, hq, ih hrest]

theorem groupByDayStep_spec (tza : Int → Int) (p : List Expense) (e : Expense) :
    groupByDayStep tza (groupsSpec (fun x => dayKey tza x.timestamp) p) e =
      groupsSpec (fun x => dayKey tza x.timestamp) (p ++ [e]) := by
  unfold groupByDayStep groupsSpec
  simp only [List.map_append, List.map_cons, List.map_nil]
  rw [firstSeen_append_singleton]
  by_cases hk : dayKey tza e.timestamp ∈ p.map (fun x => dayKey tza x.timestamp)
  · have hk' : dayKey tza e.timestamp ∈ firstSeen (p.map (fun x => dayKey tza x.timestamp)) :=
      (mem_firstSeen _ _).mpr hk
    rw [if_pos hk]
    simp only [objGet_map, if_pos hk', Option.isNone_some, Bool.false_eq_true, if_false]
    rw [objSet_map_present _ _ _ _ (firstSeen_nodup _) hk']
    apply List.map_congr_left
    intro k _
    by_cases hkk : k = dayKey tza e.timestamp
    · simp [hkk, List.filter_append]
    · have : ¬ dayKey tza e.timestamp = k := fun h => hkk h.symm
      simp [hkk, this, List.filter_append]
  · have hk' : dayKey tza e.timestamp ∉ firstSeen (p.map (fun x => dayKey tza x.timestamp)) :=
      fun h => hk ((mem_firstSeen _ _).mp h)
    rw [if_neg hk]
    simp only [objGet_map, if_neg hk', Option.isNone_none, if_true]
    rw [objSet_map_absent _ _ _ _ hk']
    have hnew : ∀ q ∈ (firstSeen (p.map (fun x => dayKey tza x.timestamp))).map
        (fun k => (k, p.filter (fun x => dayKey tza x.timestamp == k))),
        q.1 ≠ dayKey tza e.timestamp := by
      intro q hq
      obtain ⟨k, hkm, rfl⟩ := List.mem_map.mp hq
      exact fun h => hk' (h ▸ hkm)
    rw [objGet_append_new _ _ _ hnew]
    simp only
    rw [objSet_append_new _ _ _ _ hnew]
    have hempty : p.filter (fun x => dayKey tza x.timestamp == dayKey tza e.timestamp) = [] := by
      rw [List.filter_eq_nil_iff]
      intro x hx hc
      exact hk (List.mem_map.mpr ⟨x, hx, by simpa using hc⟩)
    simp only [List.map_append, List.map_cons, List.map_nil, List.filter_append, hempty,
      List.nil_append]
    congr 1
    · apply List.map_congr_left
      intro k hkm
      have : ¬ dayKey tza e.timestamp = k := fun h => hk' (h ▸ hkm)
      simp [this]
    · simp


theorem groupByDay_eq_spec (tza : Int → Int) (items : List Expense) :
    groupByDay tza items = groupsSpec (fun x => dayKey tza x.timestamp) items := by
  unfold groupByDay
  induction items using List.reverseRecOn with
  | nil => simp [groupsSpec, firstSeen]
  | append_singleton xs x ih =>
    rw [List.foldl_append, List.foldl_cons, List.foldl_nil, ih, groupByDayStep_spec]

theorem dayKey_not_arrayIndex (tza : Int → Int) (t : Int) :
    isArrayIndex (dayKey tza t) = false := by
  have hmem : '-' ∈ (dayKey tza t).toList := by
    simp [dayKey, String.toList]
  have hall : (dayKey tza t).toList.all Char.isDigit = false := by
    rw [Bool.eq_false_iff]
    intro h
    rw [List.all_eq_true] at h
    have := h _ hmem
    revert this
    decide
  unfold isArrayIndex
  simp only [hall]
  simp

theorem objectEntries_of_no_index {β : Type} (o : List (String × β))
    (h : ∀ p ∈ o, isArrayIndex p.1 = false) : objectEntries o = o := by
  have h1 : o.filter (fun p => isArrayIndex p.1) = [] := by
    rw [List.filter_eq_nil_iff]
    intro p hp
    simp [h p hp]
  have h2 : o.filter (fun p => !isArrayIndex p.1) = o := by
    rw [List.filter_eq_self]
    intro p hp
    simp [h p hp]
  simp [objectEntries, h1, h2]

theorem objectEntries_groupByDay (tza : Int → Int) (items : List Expense) :
    objectEntries (groupByDay tza items) =
      groupsSpec (fun x => dayKey tza x.timestamp) items := by
  rw [groupByDay_eq_spec]
  apply objectEntries_of_no_index
  intro p hp
  obtain ⟨k, hk, rfl⟩ := List.mem_map.mp hp
  obtain ⟨x, _, hx⟩ := List.mem_map.mp ((mem_firstSeen _ _).mp hk)
  simp only
  rw [← hx]
  exact dayKey_not_arrayIndex tza x.timestamp

theorem sum_indicator (a : String) :
    ∀ ks : List String, ks.Nodup → a ∈ ks →
      (ks.map (fun k => if a = k then 1 else 0)).sum = 1 := by
  intro ks
  induction ks with
  | nil => intro _ h; simp at h
  | cons k ks ih =>
    intro hnd ha
    have hnd' : k ∉ ks ∧ ks.Nodup := by simpa using hnd
    by_cases hk : a = k
    · have hz : (ks.map (fun k => if a = k then 1 else 0)).sum = 0 := by
        apply List.sum_eq_zero
        intro n hn
        obtain ⟨k2, hk2, rfl⟩ := List.mem_map.mp hn
        have : ¬ a = k2 := fun h => hnd'.1 (hk ▸ h ▸ hk2)
        simp [this]
      rw [List.map_cons, List.sum_cons, hz, if_pos hk]
    · have ha' : a ∈ ks := by
        rcases List.mem_cons.mp ha with h | h
        · exact absurd h hk
        · exact h
      simp [hk, ih hnd'.2 ha']

theorem sum_group_lengths (key : Expense → String) (items : List Expense) :
    ∀ ks : List String, ks.Nodup → (∀ e ∈ items, key e ∈ ks) →
      ((ks.map (fun k => (items.filter (fun e => key e == k)).length)).sum = items.length) := by
  induction items with
  | nil => intro ks _ _; simp
  | cons x xs ih =>
    intro ks hnd hall
    have hx : key x ∈ ks := hall x (by simp)
    have hrest := ih ks hnd (fun e he => hall e (List.mem_cons_of_mem _ he))
    have hsplit : ∀ k, ((x :: xs).filter (fun e => key e == k)).length =
        (if key x = k then 1 else 0) + (xs.filter (fun e => key e == k)).length := by
      intro k
      by_cases h : key x = k
      · simp [List.filter_cons, h]; omega
      · simp [List.filter_cons, h]
    simp only [hsplit]
    rw [List.sum_map_add, hrest, sum_indicator (key x) ks hnd hx, List.length_cons]
    omega


/-- C6: the entries of the object returned by `groupByDay`, in iteration
order, are one entry per distinct day-key of the input, in order of first
occurrence, each holding exactly the input records with that day-key in their
original order.  So the keys are pairwise distinct and are the day-keys that
occur, a key comes before another exactly as its first occurrence does, a
record lies in the group of its own day-key and in no other, and the group
sizes add up to the number of records.  On the timestamps Jan 2 10:00,
Jan 1 09:00, Jan 2 08:00 (UTC) the result is Jan 2 with records 1 and 3, then
Jan 1 with record 2. -/
theorem groupByDay_first_seen_order (tza : Int → Int) (items : List Expense) :
    objectEntries (groupByDay tza items) =
        (firstSeen (items.map (fun e => dayKey tza e.timestamp))).map
          (fun k => (k, items.filter (fun e => dayKey tza e.timestamp == k))) ∧
      ((objectEntries (groupByDay tza items)).map (fun p => p.1)).Nodup ∧
      (∀ k, k ∈ (objectEntries (groupByDay tza items)).map (fun p => p.1) ↔
        ∃ e ∈ items, dayKey tza e.timestamp = k) ∧
      ((objectEntries (groupByDay tza items)).map (fun p => p.1)).Pairwise
        (fun a b => (items.map (fun e => dayKey tza e.timestamp)).indexOf a <
          (items.map (fun e => dayKey tza e.timestamp)).indexOf b) ∧
      (∀ e ∈ items, ∀ p ∈ objectEntries (groupByDay tza items),
        e ∈ p.2 ↔ p.1 = dayKey tza e.timestamp) ∧
      ((objectEntries (groupByDay tza items)).map (fun p => p.2.length)).sum = items.length ∧
      objectEntries (groupByDay utc [jan2a, jan1, jan2b]) =
        [("2024-01-02", [jan2a, jan2b]), ("2024-01-01", [jan1])] := by
  have hkeys : (objectEntries (groupByDay tza items)).map (fun p => p.1) =
      firstSeen (items.map (fun e => dayKey tza e.timestamp)) := by
    rw [objectEntries_groupByDay, groupsSpec, List.map_map]
    exact (List.map_id _)
  refine ⟨objectEntries_groupByDay tza items, ?_, ?_, ?_, ?_, ?_, ?_⟩
  · rw [hkeys]; exact firstSeen_nodup _
  · intro k
    rw [hkeys, mem_firstSeen, List.mem_map]
  · rw [hkeys]; exact firstSeen_indexOf _
  · intro e he p hp
    rw [objectEntries_groupByDay, groupsSpec] at hp
    obtain ⟨k, _, rfl⟩ := List.mem_map.mp hp
    simp only [List.mem_filter, he, true_and, beq_iff_eq]
    exact eq_comm
  · rw [objectEntries_groupByDay, groupsSpec, List.map_map]
    exact sum_group_lengths (fun e => dayKey tza e.timestamp) items _ (firstSeen_nodup _)
      (fun e he => (mem_firstSeen _ _).mpr (List.mem_map.mpr ⟨e, he, rfl⟩))
  · decide

theorem foldl_amount (l : List Expense) :
    ∀ a : ℚ, l.foldl (fun sum e => sum + e.amount) a = a + (l.map (fun e => e.amount)).sum := by
  induction l with
  | nil => intro a; simp
  | cons x xs ih =>
    intro a
    rw [List.foldl_cons, ih, List.map_cons, List.sum_cons, add_assoc]

theorem monthTotal_eq_sum (tza : Int → Int) (now : Int) (l : List Expense) :
    monthTotal tza now l = ((l.filter (sameMonth tza now)).map (fun e => e.amount)).sum := by
  unfold monthTotal
  rw [foldl_amount, zero_add]

/-- C7: the total of `updateMonthSummary` is the sum of `amount` over the
records whose local month and local year both equal those of the reference
instant.  A record whose year or month differs contributes nothing wherever it
stands, a record with the same year and month contributes its amount, and the
total is 0 when no record is selected.  With the reference instant on
15 Jan 2024, a record of 15 Jan 2023 and a record of 15 Feb 2024 add nothing
to the three January 2024 records. -/
theorem monthTotal_selects_month_and_year (tza : Int → Int) (now : Int)
    (expenses : List Expense) :
    monthTotal tza now expenses =
        (expenses.map (fun e =>
          if getFullYear tza e.timestamp = getFullYear tza now ∧
              getMonth tza e.timestamp = getMonth tza now then e.amount else 0)).sum ∧
      (∀ (front back : List Expense) (e : Expense),
        (getFullYear tza e.timestamp ≠ getFullYear tza now ∨
            getMonth tza e.timestamp ≠ getMonth tza now) →
          monthTotal tza now (front ++ e :: back) = monthTotal tza now (front ++ back)) ∧
      (∀ (front back : List Expense) (e : Expense),
        getFullYear tza e.timestamp = getFullYear tza now →
          getMonth tza e.timestamp = getMonth tza now →
          monthTotal tza now (front ++ e :: back) =
            monthTotal tza now (front ++ back) + e.amount) ∧
      ((∀ e ∈ expenses, getFullYear tza e.timestamp ≠ getFullYear tza now ∨
          getMonth tza e.timestamp ≠ getMonth tza now) → monthTotal tza now expenses = 0) ∧
      monthTotal tza now [] = 0 ∧
      monthTotal utc 1705320000000 [jan2a, jan2023, jan1, feb2024, jan2b] = 22 := by
  have hsel : ∀ l : List Expense, monthTotal tza now l =
      (l.map (fun e =>
        if getFullYear tza e.timestamp = getFullYear tza now ∧
            getMonth tza e.timestamp = getMonth tza now then e.amount else 0)).sum := by
    intro l
    rw [monthTotal_eq_sum]
    induction l with
    | nil => simp
    | cons x xs ih =>
      by_cases h : getFullYear tza x.timestamp = getFullYear tza now ∧
          getMonth tza x.timestamp = getMonth tza now
      · have hs : sameMonth tza now x = true := by simp [sameMonth, h.1, h.2]
        rw [List.filter_cons_of_pos hs, List.map_cons, List.sum_cons, ih, List.map_cons,
          List.sum_cons, if_pos h]
      · have hs : ¬ sameMonth tza now x = true := by
          intro hc
          simp only [sameMonth, Bool.and_eq_true, beq_iff_eq] at hc
          exact h ⟨hc.2, hc.1⟩
        rw [List.filter_cons_of_neg hs, ih, List.map_cons, List.sum_cons, if_neg h, zero_add]
  refine ⟨hsel expenses, ?_, ?_, ?_, ?_, ?_⟩
  · intro front back e hne
    have hn : ¬ (getFullYear tza e.timestamp = getFullYear tza now ∧
        getMonth tza e.timestamp = getMonth tza now) := by
      rintro ⟨h1, h2⟩
      rcases hne with h | h
      · exact h h1
      · exact h h2
    rw [hsel, hsel]
    simp [hn]
  · intro front back e h1 h2
    rw [hsel, hsel]
    simp only [List.map_append, List.map_cons, List.sum_append, List.sum_cons, h1, h2,
      and_self, if_true]
    ring
  · intro hall
    rw [hsel]
    apply List.sum_eq_zero
    intro q hq
    obtain ⟨e, he, rfl⟩ := List.mem_map.mp hq
    have hn : ¬ (getFullYear tza e.timestamp = getFullYear tza now ∧
        getMonth tza e.timestamp = getMonth tza now) := by
      rintro ⟨h1, h2⟩
      rcases hall e he with h | h
      · exact h h1
      · exact h h2
    simp [hn]
  · rfl
  · rw [monthTotal_eq_sum]
    have hf : [jan2a, jan2023, jan1, feb2024, jan2b].filter (sameMonth utc 1705320000000) =
        [jan2a, jan1, jan2b] := by decide
    rw [hf]
    norm_num [jan2a, jan1, jan2b]

theorem digitChar_isDigit : ∀ m : Nat, m < 10 → (Nat.digitChar m).isDigit = true := by
  decide

theorem toDigitsCore_isDigit :
    ∀ (fuel n : Nat) (ds : List Char), (∀ c ∈ ds, c.isDigit = true) →
      ∀ c ∈ Nat.toDigitsCore 10 fuel n ds, c.isDigit = true := by
  intro fuel
  induction fuel with
  | zero => intro n ds h; simpa [Nat.toDigitsCore] using h
  | succ f ih =>
    intro n ds h
    have hd : ∀ c ∈ Nat.digitChar (n % 10) :: ds, c.isDigit = true := by
      intro c hc
      rcases List.mem_cons.mp hc with rfl | hc
      · exact digitChar_isDigit _ (Nat.mod_lt _ (by decide))
      · exact h c hc
    unfold Nat.toDigitsCore
    by_cases h0 : n / 10 = 0
    · simpa [h0] using hd
    · simp only [h0, if_false]
      exact ih _ _ hd

theorem toDigitsCore_length_le :
    ∀ (fuel n : Nat) (ds : List Char), ds.length ≤ (Nat.toDigitsCore 10 fuel n ds).length := by
  intro fuel
  induction fuel with
  | zero => intro n ds; simp [Nat.toDigitsCore]
  | succ f ih =>
    intro n ds
    unfold Nat.toDigitsCore
    by_cases h0 : n / 10 = 0
    · simp [h0]
    · simp only [h0, if_false]
      exact Nat.le_trans (by simp) (ih _ (Nat.digitChar (n % 10) :: ds))

theorem toDigits_pos (n : Nat) : 1 ≤ (Nat.toDigits 10 n).length := by
  unfold Nat.toDigits Nat.toDigitsCore
  by_cases h0 : n / 10 = 0
  · simp [h0]
  · simp only [h0, if_false]
    exact Nat.le_trans (by simp) (toDigitsCore_length_le _ _ [Nat.digitChar (n % 10)])

theorem padSplit_shape (m : List Char) (hpos : 1 ≤ m.length)
    (hdig : ∀ c ∈ m, c.isDigit = true) :
    (padSplit m).1 ≠ [] ∧ (padSplit m).2.length = 2 ∧
      ∀ c ∈ (padSplit m).1 ++ (padSplit m).2, c.isDigit = true := by
  simp only [padSplit]
  generalize hm2 : (if m.length ≤ 2 then List.replicate (3 - m.length) '0' ++ m else m) = m2
  have hlen : 3 ≤ m2.length := by
    rw [← hm2]
    split
    · simp; omega
    · omega
  have hdig2 : ∀ c ∈ m2, c.isDigit = true := by
    rw [← hm2]
    split
    · intro c hc
      rcases List.mem_append.mp hc with h | h
      · rw [(List.mem_replicate.mp h).2]; decide
      · exact hdig c h
    · exact hdig
  refine ⟨?_, ?_, ?_⟩
  · intro h
    have := congrArg List.length h
    simp at this
    omega
  · simp; omega
  · intro c hc
    rw [List.take_append_drop] at hc
    exact hdig2 c hc

theorem fixedDigits_shape (x : ℚ) :
    (fixedDigits x).1 ≠ [] ∧ (fixedDigits x).2.length = 2 ∧
      ∀ c ∈ (fixedDigits x).1 ++ (fixedDigits x).2, c.isDigit = true :=
  padSplit_shape _ (toDigits_pos _) (toDigitsCore_isDigit _ _ [] (by simp))

theorem intercalate_go_eq_foldl (sep : String) :
    ∀ (rows : List String) (acc : String),
      String.intercalate.go acc sep rows = rows.foldl (fun t r => t ++ sep ++ r) acc := by
  intro rows
  induction rows with
  | nil => intro acc; rfl
  | cons r rs ih => intro acc; simp [String.intercalate.go, ih]


/-- C8 as amended: for a non-empty collection the CSV text is the header line
`Date,Time,Category,Note,Amount` followed, for each record in collection
order, by a line feed and that record's row; a row is date, time, category
label, note field and amount field joined by commas; the note field is the
note in double quotes with every double quote doubled; and for an amount
below 10^21 in magnitude the amount field is an optional minus sign, at least
one digit, a point and exactly two digits, with no other character. -/
theorem exportToCSV_rows (loc : Locale) (expenses : List Expense) (hne : expenses ≠ []) :
    exportToCSV loc expenses =
        some ((expenses.map (csvRow loc)).foldl (fun text row => text ++ "\n" ++ row)
          "Date,Time,Category,Note,Amount") ∧
      (∀ e : Expense, csvRow loc e =
        loc.toLocaleDateString e.timestamp ++ "," ++ loc.toLocaleTimeString e.timestamp ++ "," ++
          getCategoryLabel e.category ++ "," ++ noteField e.note ++ "," ++ toFixed2 e.amount) ∧
      (∀ note : String, noteField note =
        String.mk ([dquote] ++
          (note.toList.map (fun c => if c = dquote then [dquote, dquote] else [c])).flatten ++
          [dquote])) ∧
      noteField "He said \x22hi\x22" = "\x22He said \x22\x22hi\x22\x22\x22" ∧
      (∀ e ∈ expenses, |e.amount| < 10 ^ 21 →
        ∃ whole frac : List Char,
          toFixed2 e.amount =
              (if e.amount < 0 then "-" else "") ++ String.mk whole ++ "." ++ String.mk frac ∧
            whole ≠ [] ∧ frac.length = 2 ∧ ∀ c ∈ whole ++ frac, c.isDigit = true) := by
  refine ⟨?_, ?_, ?_, ?_, ?_⟩
  · have hlen : ¬ expenses.length = 0 := fun h => hne (List.length_eq_zero.mp h)
    simp only [exportToCSV, if_neg hlen, String.intercalate, intercalate_go_eq_foldl]
    rfl
  · intro e
    rfl
  · intro note
    rfl
  · decide
  · intro e _ hlt
    refine ⟨(fixedDigits (if e.amount < 0 then -e.amount else e.amount)).1,
      (fixedDigits (if e.amount < 0 then -e.amount else e.amount)).2, ?_,
      fixedDigits_shape _⟩
    have hsmall : ¬ ((10 : ℚ) ^ 21 ≤ (if e.amount < 0 then -e.amount else e.amount)) := by
      rw [abs_lt] at hlt
      split <;> linarith [hlt.1, hlt.2]
    simp only [toFixed2, if_neg hsmall]

theorem exportToCSV_rows_witness :
    [quoted, jan1] ≠ [] ∧
      exportToCSV utcLocale [quoted, jan1] =
        some (([quoted, jan1].map (csvRow utcLocale)).foldl
          (fun text row => text ++ "\n" ++ row) "Date,Time,Category,Note,Amount") :=
  ⟨by decide, (exportToCSV_rows utcLocale [quoted, jan1] (by decide)).1⟩

theorem toFixed2_huge : toFixed2 huge.amount = "2e+21" := by
  have hx : huge.amount = 2 * 10 ^ 21 := rfl
  have hneg : ¬ ((2 * 10 ^ 21 : ℚ) < 0) := by norm_num
  have hbig : (10 : ℚ) ^ 21 ≤ 2 * 10 ^ 21 := by norm_num
  have hfloor : ⌊(2 * 10 ^ 21 : ℚ)⌋ = 2000000000000000000000 := by
    rw [Int.floor_eq_iff]; norm_num
  rw [hx]
  simp only [toFixed2, if_neg hneg, if_pos hbig, numberToStringExp, hfloor]
  decide

theorem toFixed2_hundredths (n : Nat) (h : n < 10 ^ 23) :
    toFixed2 ((n : ℚ) / 100) =
      String.mk (padSplit (Nat.toDigits 10 n)).1 ++ "." ++
        String.mk (padSplit (Nat.toDigits 10 n)).2 := by
  have hn : (0 : ℚ) ≤ (n : ℚ) := Nat.cast_nonneg n
  have hneg : ¬ ((n : ℚ) / 100 < 0) := not_lt.mpr (div_nonneg hn (by norm_num))
  have hsmall : ¬ ((10 : ℚ) ^ 21 ≤ (n : ℚ) / 100) := by
    have h2 : (n : ℚ) < 10 ^ 23 := by exact_mod_cast h
    rw [not_le, div_lt_iff₀ (by norm_num)]
    linarith
  have hfloor : ⌊(n : ℚ) / 100 * 100 + 1 / 2⌋ = (n : Int) := by
    rw [Int.floor_eq_iff]
    have : (n : ℚ) / 100 * 100 = n := by field_simp
    rw [this]
    push_cast
    constructor <;> linarith
  simp only [toFixed2, if_neg hneg, if_neg hsmall, fixedDigits, hfloor, Int.toNat_ofNat]
  rfl

/-- C8, the claim as stated fails: a record with the amount 2e21 is exported
with the amount field `2e+21`, which has no decimal point and no decimals. -/
theorem exportToCSV_exponent_amount :
    exportToCSV utcLocale [huge] =
        some "Date,Time,Category,Note,Amount\n2024-01-02,10:00,Bills,\x22n\x22,2e+21" ∧
      toFixed2 huge.amount = "2e+21" ∧
      (toFixed2 huge.amount).toList.all (fun c => c != '.') = true := by
  have hrow : csvRow utcLocale huge =
      utcLocale.toLocaleDateString huge.timestamp ++ "," ++
        utcLocale.toLocaleTimeString huge.timestamp ++ "," ++
        getCategoryLabel huge.category ++ "," ++ noteField huge.note ++ "," ++
        toFixed2 huge.amount := rfl
  refine ⟨?_, toFixed2_huge, ?_⟩
  · have hcsv : exportToCSV utcLocale [huge] =
        some ("Date,Time,Category,Note,Amount" ++ "\n" ++ csvRow utcLocale huge) := rfl
    rw [hcsv, hrow, toFixed2_huge]
    decide
  · rw [toFixed2_huge]
    decide

/-- The export of two records, written out. -/
theorem exportToCSV_example :
    exportToCSV utcLocale [quoted, jan1] =
      some ("Date,Time,Category,Note,Amount\n" ++
        "2024-01-02,10:00,Food,\x22He said \x22\x22hi\x22\x22\x22,12345.67\n" ++
        "2024-01-01,09:00,Food,\x22n\x22,7.00") := by
  have hq : toFixed2 quoted.amount = "12345.67" := by
    have hx : quoted.amount = ((1234567 : Nat) : ℚ) / 100 := by
      simp only [quoted]; norm_num
    rw [hx, toFixed2_hundredths 1234567 (by norm_num)]
    decide
  have hj : toFixed2 jan1.amount = "7.00" := by
    have hx : jan1.amount = ((700 : Nat) : ℚ) / 100 := by
      simp only [jan1]; norm_num
    rw [hx, toFixed2_hundredths 700 (by norm_num)]
    decide
  have hrow : ∀ e, csvRow utcLocale e =
      utcLocale.toLocaleDateString e.timestamp ++ "," ++
        utcLocale.toLocaleTimeString e.timestamp ++ "," ++
        getCategoryLabel e.category ++ "," ++ noteField e.note ++ "," ++
        toFixed2 e.amount := fun _ => rfl
  have hcsv : exportToCSV utcLocale [quoted, jan1] =
      some ("Date,Time,Category,Note,Amount" ++ "\n" ++ csvRow utcLocale quoted ++ "\n" ++
        csvRow utcLocale jan1) := rfl
  rw [hcsv, hrow, hrow, hq, hj]
  decide

/-- C9 as amended: when nothing is stored, when reading the store raises,
when the stored text is empty, or when `JSON.parse` raises on it,
`loadExpenses` leaves the empty collection; a non-empty text that
`JSON.parse` accepts is taken over as parsed, whatever its shape. -/
theorem loadExpenses_absent_or_unparsable (jsonParse : String → Option JsVal) :
    loadExpenses jsonParse .absent = .arr [] ∧
      loadExpenses jsonParse .raises = .arr [] ∧
      loadExpenses jsonParse (.value "") = .arr [] ∧
      (∀ data, jsonParse data = none → loadExpenses jsonParse (.value data) = .arr []) ∧
      (∀ data v, data ≠ "" → jsonParse data = some v →
        loadExpenses jsonParse (.value data) = v) := by
  refine ⟨rfl, rfl, rfl, ?_, ?_⟩
  · intro data h
    unfold loadExpenses
    by_cases hd : data = ""
    · simp [hd]
    · simp [hd, h]
  · intro data v hd h
    unfold loadExpenses
    simp [hd, h]

/-- C9, the claim as stated fails: the stored text `null` is not a
serialized sequence of records, `JSON.parse` accepts it, and `loadExpenses`
leaves `null` in `expenses`, not the empty collection. -/
theorem loadExpenses_keeps_parsed_null :
    loadExpenses parseLiteral (.value "null") = .null ∧
      loadExpenses parseLiteral (.value "null") ≠ .arr [] := by
  have h : loadExpenses parseLiteral (.value "null") = .null := by
    simp [loadExpenses, parseLiteral]
  exact ⟨h, by rw [h]; exact fun hc => JsVal.noConfusion hc⟩

/-- C10 as amended: whether or not the store write succeeds, `handleSubmit`,
the scheduled removal and `undoDelete` leave the same collection, undo slot
and pending removals; no exception escapes when the write succeeds; when the
write fails the exception escapes from exactly those runs that reach
`saveExpenses`. -/
theorem write_failure_keeps_memory (s : State) (amount : Option ℚ)
    (noteValue categoryValue : String) (t0 t1 : Int) (rnd : String) :
    (handleSubmit false s amount noteValue categoryValue t0 t1 rnd).state =
        (handleSubmit true s amount noteValue categoryValue t0 t1 rnd).state ∧
      (removalCallback false s).state = (removalCallback true s).state ∧
      (undoDelete false s).state = (undoDelete true s).state ∧
      (handleSubmit true s amount noteValue categoryValue t0 t1 rnd).threw = false ∧
      (removalCallback true s).threw = false ∧
      (undoDelete true s).threw = false ∧
      ((handleSubmit false s amount noteValue categoryValue t0 t1 rnd).threw = true ↔
        ∃ a, amount = some a ∧ 0 < a) ∧
      ((removalCallback false s).threw = true ↔ s.timers ≠ []) ∧
      ((undoDelete false s).threw = true ↔ s.lastDeleted ≠ none) := by
  refine ⟨?_, ?_, ?_, ?_, ?_, ?_, ?_, ?_, ?_⟩
  · cases amount with
    | none => rfl
    | some a =>
      by_cases hg : a = 0 ∨ a ≤ 0
      · simp only [handleSubmit, if_pos hg]
      · simp only [handleSubmit, if_neg hg]
  · cases ht : s.timers <;> simp [removalCallback, ht]
  · cases hl : s.lastDeleted <;> simp [undoDelete, hl]
  · cases amount with
    | none => rfl
    | some a =>
      by_cases hg : a = 0 ∨ a ≤ 0
      · simp only [handleSubmit, if_pos hg]
      · simp only [handleSubmit, if_neg hg, saveExpenses]; rfl
  · cases ht : s.timers <;> simp [removalCallback, ht, saveExpenses]
  · cases hl : s.lastDeleted <;> simp [undoDelete, hl, saveExpenses]
  · cases amount with
    | none => simp [handleSubmit]
    | some a =>
      by_cases hg : a = 0 ∨ a ≤ 0
      · have hn : ¬ 0 < a := by
          rcases hg with h | h
          · rw [h]; exact lt_irrefl _
          · exact not_lt.mpr h
        simp [handleSubmit, if_pos hg, hn]
      · have hp : 0 < a := by
          by_contra hc
          exact hg (Or.inr (not_lt.mp hc))
        simp [handleSubmit, if_neg hg, saveExpenses, hp]
  · cases ht : s.timers <;> simp [removalCallback, ht, saveExpenses]
  · cases hl : s.lastDeleted <;> simp [undoDelete, hl, saveExpenses]

/-- C10, the claim as stated fails: with the store write failing, the
exception raised in `saveExpenses` escapes from `handleSubmit`, from the
scheduled removal and from `undoDelete`. -/
theorem write_failure_escapes :
    (handleSubmit false (idle [sample "a"]) (some 5) "" "food" 7 8 "ab").threw = true ∧
      (removalCallback false (deleteExpense (idle [sample "a"]) "a")).threw = true ∧
      (undoDelete false
        (removalCallback true (deleteExpense (idle [sample "a"]) "a")).state).threw = true := by
  refine ⟨?_, by decide, by decide⟩
  have hg : ¬ ((5 : ℚ) = 0 ∨ (5 : ℚ) ≤ 0) := by norm_num
  simp only [handleSubmit, if_neg hg, saveExpenses]
  rfl

end ExpLog
